import Mathlib

/-!
Shallow embedding of `pkg/reconciler/taskrun/validate_resources.go` (package
`taskrun`): the conformance checks a TaskRun instance must pass against a
resolved Task specification.  Go slices become `List`, Go maps become
association lists with unique keys (built by the same insert/append
operations the Go code performs), nil pointers become `Option`, and each
function returning `error` becomes a function into an explicit error type,
`none` standing for the nil (success) result.
-/

set_option autoImplicit false

namespace Taskrun

/-- Runtime / declared type of a parameter value (`v1beta1.ParamType`). -/
inductive ParamType where
  | string
  | array
  | object
deriving DecidableEq, Repr

/-- A parameter value (`v1beta1.ArrayOrString`): the validator only ever reads
its runtime `Type` and the key set of its `ObjectVal` map, so the embedding
keeps the runtime type and the list of object keys. -/
structure ParamValue where
  type : ParamType
  objectVal : List String
deriving DecidableEq, Repr

/-- A supplied parameter (`v1beta1.Param`). -/
structure Param where
  name : String
  value : ParamValue
deriving DecidableEq, Repr

/-- A declared parameter (`v1beta1.ParamSpec`): the validator reads the name,
the declared type, whether a default is present, and the key set of the
`Properties` map (required object sub-keys). -/
structure ParamSpec where
  name : String
  type : ParamType
  default : Option ParamValue
  properties : List String
deriving DecidableEq, Repr

/-- A declared task resource (`v1beta1.TaskResource`): name, resource-kind
type, and the optional flag. -/
structure TaskResource where
  name : String
  type : String
  optional : Bool
deriving DecidableEq, Repr

/-- A declared step: the validator only reads its name. -/
structure Step where
  name : String
deriving DecidableEq, Repr

/-- A declared sidecar: the validator only reads its name. -/
structure Sidecar where
  name : String
deriving DecidableEq, Repr

/-- The slice of `v1beta1.TaskSpec` read by the override validators. -/
structure TaskSpec where
  steps : List Step
  sidecars : List Sidecar
deriving DecidableEq, Repr

/-- A step or sidecar override (`v1beta1.TaskRunStepOverride` /
`v1beta1.TaskRunSidecarOverride`): the validator only reads the name. -/
structure Override where
  name : String
deriving DecidableEq, Repr

/-- The slice of `v1beta1.TaskRunSpec` read by the override validators. -/
structure TaskRunSpec where
  stepOverrides : List Override
  sidecarOverrides : List Override
deriving DecidableEq, Repr

/-- A declared result (`v1beta1.TaskResult`): `mismatchedTypesResults` reads
only the name and `string(r.Type)`. -/
structure TaskResult where
  name : String
  type : String
deriving DecidableEq, Repr

/-- An emitted result (`v1beta1.TaskRunResult`): `mismatchedTypesResults`
reads only the name and `string(trr.Type)`. -/
structure TaskRunResult where
  name : String
  type : String
deriving DecidableEq, Repr

/-- Modelled from the spec: `list.DiffLeft` (package `pkg/list`, not part of
the sources at hand) returns every name in `left` that does not occur
anywhere in `right`, preserving the relative order of `left`, passing
duplicate entries of `left` through (spec section 4.1). -/
def DiffLeft (left right : List String) : List String :=
  left.filter (fun s => decide (s ∉ right))

/-- Go map lookup for a `map[string]V` represented as an association list
built by Go map assignment (`m[k] = v`): with assignment semantics the last
write wins, so lookup scans from the right. -/
def lookupLast {α : Type} (m : List (String × α)) (k : String) : Option α :=
  match m with
  | [] => none
  | kv :: rest =>
    match lookupLast rest k with
    | some v => some v
    | none => if kv.1 = k then some kv.2 else none

/-- First-match association-list lookup, used for maps whose construction
keeps keys unique (so first match and last match coincide). -/
def alookup {α : Type} (m : List (String × α)) (k : String) : Option α :=
  match m with
  | [] => none
  | kv :: rest => if kv.1 = k then some kv.2 else alookup rest k

/-- Go's `m[k] = append(m[k], v)` on a `map[string][]string`: append `v` to
the entry of `k`, creating the entry when absent.  Keeps keys unique. -/
def upsertAppend (m : List (String × List String)) (k : String) (v : String) :
    List (String × List String) :=
  match m with
  | [] => [(k, [v])]
  | kv :: rest =>
    if kv.1 = k then (kv.1, kv.2 ++ [v]) :: rest
    else kv :: upsertAppend rest k v

/-- Go map indexing `providedResources[name]` on a
`map[string]*PipelineResource`: yields the binding's `Spec.Type` when the key
is present with a non-nil pointer, and `none` both when the key is absent and
when it is present with a nil pointer (Go returns the zero value nil in the
former case). -/
def mapGet (provided : List (String × Option String)) (name : String) : Option String :=
  match provided.find? (fun kv => decide (kv.1 = name)) with
  | none => none
  | some kv => kv.2

/-- Errors returned by `validateResources`, one constructor per `fmt.Errorf`
site, carrying the arguments in the order the format string receives them. -/
inductive ResourcesError where
  | missing (names : List String)
  | extra (names : List String)
  | resourceMissing (name : String)
  | typeMismatch (name shouldBe was : String)
deriving DecidableEq, Repr

/-- The per-resource loop at the end of `validateResources`: for each
declared resource, look its name up among the provided resources; a required
resource with a nil binding yields the `resource is missing` error, a present
binding whose type differs from the declared type yields the type-mismatch
error, whose `shouldBe` slot receives `r.Spec.Type` (the provided type) and
whose `was` slot receives `resource.Type` (the declared type), exactly as the
Go call passes them. -/
def resourcesTypeCheck (requiredResources : List TaskResource)
    (providedResources : List (String × Option String)) : Option ResourcesError :=
  match requiredResources with
  | [] => none
  | resource :: rest =>
    match mapGet providedResources resource.name with
    | none =>
      if resource.optional = false then some (ResourcesError.resourceMissing resource.name)
      else resourcesTypeCheck rest providedResources
    | some t =>
      if resource.type ≠ t then some (ResourcesError.typeMismatch resource.name t resource.type)
      else resourcesTypeCheck rest providedResources

/-- Function `validateResources`: partition the declared resources into required and
optional name lists, fail on required names missing from the provided map,
then on provided names outside required ∪ optional, then run the
per-resource type loop. -/
def validateResources (requiredResources : List TaskResource)
    (providedResources : List (String × Option String)) : Option ResourcesError :=
  let required := (requiredResources.filter (fun r => !r.optional)).map (fun r => r.name)
  let optional := (requiredResources.filter (fun r => r.optional)).map (fun r => r.name)
  let provided := providedResources.map (fun kv => kv.1)
  let missing := DiffLeft required provided
  if missing ≠ [] then some (ResourcesError.missing missing) else
  let extra := DiffLeft provided (required ++ optional)
  if extra ≠ [] then some (ResourcesError.extra extra) else
  resourcesTypeCheck requiredResources providedResources

/-- Function `neededParamsNamesAndTypes`: the declared names in order, and the Go map
name → declared type built by assignment (represented as the association
list of all assignments, read with last-write-wins lookup). -/
def neededParamsNamesAndTypes (paramSpecs : List ParamSpec) :
    List String × List (String × ParamType) :=
  (paramSpecs.map (fun s => s.name), paramSpecs.map (fun s => (s.name, s.type)))

/-- Function `providedParamsNames`: the names of the given parameters, in order. -/
def providedParamsNames (params : List Param) : List String :=
  params.map (fun p => p.name)

/-- Function `missingParamsNames`: declared names with no supplied counterpart,
filtered (by the nested loops of the Go code) to those for which some
declared spec of that name has no default; one occurrence is appended per
matching spec per missing occurrence. -/
def missingParamsNames (neededParams providedParams : List String)
    (paramSpecs : List ParamSpec) : List String :=
  (DiffLeft neededParams providedParams).flatMap (fun param =>
    paramSpecs.filterMap (fun s =>
      if s.name = param ∧ s.default = none then some param else none))

/-- Function `extraParamsNames`: provided names that were not declared, computed only
when the feature-flag context's `EnableAPIFields` is not `"alpha"`; in alpha
mode the check is skipped and nil is returned.  The context is embedded as
the `EnableAPIFields` string it carries. -/
def extraParamsNames (enableAPIFields : String) (neededParams providedParams : List String) :
    List String :=
  if enableAPIFields ≠ "alpha" then DiffLeft providedParams neededParams
  else []

/-- Function `wrongTypeParamsNames`: ordinary parameters whose declared type exists
and differs from their runtime value type, followed by matrix parameters
whose declared type exists and is not String (the matrix entry's own runtime
type is never consulted); parameters with no declared type are skipped. -/
def wrongTypeParamsNames (params matrix : List Param)
    (neededParamsTypes : List (String × ParamType)) : List String :=
  (params.filterMap (fun param =>
    match lookupLast neededParamsTypes param.name with
    | none => none
    | some t => if param.value.type ≠ t then some param.name else none))
  ++ (matrix.filterMap (fun param =>
    match lookupLast neededParamsTypes param.name with
    | none => none
    | some t => if t ≠ ParamType.string then some param.name else none))

/-- Function `findMissingKeys`: for each provided entry whose name also has a needed
entry, the needed values absent from the provided values; entries with no
needed counterpart are skipped, empty differences are dropped. -/
def findMissingKeys (neededKeys providedKeys : List (String × List String)) :
    List (String × List String) :=
  providedKeys.filterMap (fun pk =>
    match alookup neededKeys pk.1 with
    | none => none
    | some needs =>
      let missedKeys := DiffLeft needs pk.2
      if missedKeys ≠ [] then some (pk.1, missedKeys) else none)

/-- Function `MissingKeysObjectParamNames`: collect, into Go maps, the required keys
of each Object-typed spec and the supplied keys of each Object-typed
parameter value (a value with no keys therefore creates no entry), then
diff them with `findMissingKeys`. -/
def MissingKeysObjectParamNames (paramSpecs : List ParamSpec) (params : List Param) :
    List (String × List String) :=
  let neededKeys := paramSpecs.foldl (fun acc spec =>
    if spec.type = ParamType.object then
      spec.properties.foldl (fun acc2 key => upsertAppend acc2 spec.name key) acc
    else acc) []
  let providedKeys := params.foldl (fun acc p =>
    if p.value.type = ParamType.object then
      p.value.objectVal.foldl (fun acc2 key => upsertAppend acc2 p.name key) acc
    else acc) []
  findMissingKeys neededKeys providedKeys

/-- Errors returned by `validateParams`, one constructor per `fmt.Errorf`
site, carrying the offending name list (or name → missing-keys map). -/
inductive ParamsError where
  | missing (names : List String)
  | extra (names : List String)
  | wrongType (names : List String)
  | missingKeys (m : List (String × List String))
deriving DecidableEq, Repr

/-- Function `validateParams`: four sequential early-return checks — missing without
default, extra (feature-flag gated), wrong type, missing object keys — over
the declared specs, the ordinary parameters and the matrix parameters; the
provided names are those of `append(params, matrix...)`. -/
def validateParams (enableAPIFields : String) (paramSpecs : List ParamSpec)
    (params matrix : List Param) : Option ParamsError :=
  let nnt := neededParamsNamesAndTypes paramSpecs
  let provided := providedParamsNames (params ++ matrix)
  let m := missingParamsNames nnt.1 provided paramSpecs
  if m ≠ [] then some (ParamsError.missing m) else
  let e := extraParamsNames enableAPIFields nnt.1 provided
  if e ≠ [] then some (ParamsError.extra e) else
  let w := wrongTypeParamsNames params matrix nnt.2
  if w ≠ [] then some (ParamsError.wrongType w) else
  let k := MissingKeysObjectParamNames paramSpecs params
  if k ≠ [] then some (ParamsError.missingKeys k) else
  none

/-- Function `validateStepOverrides`: one error message per step override whose name
is not among the declared step names, in override order (the `sets.String`
of step names is embedded as membership in the name list). -/
def validateStepOverrides (ts : TaskSpec) (trs : TaskRunSpec) : List String :=
  let stepNames := ts.steps.map (fun s => s.name)
  trs.stepOverrides.filterMap (fun so =>
    if so.name ∈ stepNames then none
    else some ("invalid StepOverride: No Step named " ++ so.name))

/-- Function `validateSidecarOverrides`: one error message per sidecar override whose
name is not among the declared sidecar names, in override order. -/
def validateSidecarOverrides (ts : TaskSpec) (trs : TaskRunSpec) : List String :=
  let sidecarNames := ts.sidecars.map (fun s => s.name)
  trs.sidecarOverrides.filterMap (fun so =>
    if so.name ∈ sidecarNames then none
    else some ("invalid SidecarOverride: No Sidecar named " ++ so.name))

/-- Function `validateOverrides`: `multierror.Append(stepErr, sidecarErr).ErrorOrNil()`
— the two accumulated error lists are flattened into one aggregate, and nil
is returned exactly when the aggregate is empty.  The `go-multierror`
library (an external collaborator) is embedded as a list of sub-error
messages, `Append` as concatenation and `ErrorOrNil` as the emptiness test,
which is its documented behaviour. -/
def validateOverrides (ts : TaskSpec) (trs : TaskRunSpec) : Option (List String) :=
  let errs := validateStepOverrides ts trs ++ validateSidecarOverrides ts trs
  if errs = [] then none else some errs

/-- Function `mismatchedTypesResults`: build name → list-of-declared-types and
name → list-of-emitted-types maps by appending (`upsertAppend`), then reuse
`findMissingKeys` on them, so an entry is produced for each emitted name
whose declared-type list has some member absent from its emitted-type
list. -/
def mismatchedTypesResults (taskRunResults : List TaskRunResult)
    (specResults : List TaskResult) : List (String × List String) :=
  let neededTypes := specResults.foldl (fun acc r => upsertAppend acc r.name r.type) []
  let providedTypes := taskRunResults.foldl (fun acc trr => upsertAppend acc trr.name trr.type) []
  findMissingKeys neededTypes providedTypes

/-! ### Helper lemmas about the embedded primitives -/

theorem mem_DiffLeft {x : String} {l r : List String} :
    x ∈ DiffLeft l r ↔ x ∈ l ∧ x ∉ r := by
  simp [DiffLeft]

theorem DiffLeft_eq_nil_iff {l r : List String} :
    DiffLeft l r = [] ↔ ∀ x ∈ l, x ∈ r := by
  simp [DiffLeft, List.filter_eq_nil_iff]

theorem DiffLeft_ne_nil_iff {l r : List String} :
    DiffLeft l r ≠ [] ↔ ∃ x ∈ l, x ∉ r := by
  rw [Ne, DiffLeft_eq_nil_iff]
  push_neg
  rfl

/-- The value `optAppend o ks` describes the effect on a map entry (present or absent)
of appending every element of `ks` to it. -/
def optAppend (o : Option (List String)) (ks : List String) : Option (List String) :=
  if ks = [] then o else some (o.getD [] ++ ks)

theorem optAppend_nil (o : Option (List String)) : optAppend o [] = o := rfl

theorem optAppend_some_append (l : List String) (a : String) (ks : List String) :
    optAppend (some (l ++ [a])) ks = some (l ++ a :: ks) := by
  cases ks with
  | nil => simp [optAppend]
  | cons b bs => simp [optAppend]

theorem optAppend_assoc (o : Option (List String)) (a b : List String) :
    optAppend (optAppend o a) b = optAppend o (a ++ b) := by
  by_cases ha : a = []
  · subst ha
    rw [optAppend_nil, List.nil_append]
  · by_cases hb : b = []
    · subst hb
      rw [optAppend_nil, List.append_nil]
    · have hab : a ++ b ≠ [] := fun hx => ha (List.append_eq_nil.mp hx).1
      simp [optAppend, ha, hb, hab, List.append_assoc]

theorem alookup_upsertAppend_self (m : List (String × List String)) (k : String) (v : String) :
    alookup (upsertAppend m k v) k = some ((alookup m k).getD [] ++ [v]) := by
  induction m with
  | nil => simp [upsertAppend, alookup]
  | cons kv rest ih =>
    by_cases h : kv.1 = k
    · simp [upsertAppend, alookup, h]
    · simp [upsertAppend, alookup, h, ih]

theorem alookup_upsertAppend_ne (m : List (String × List String)) (k v : String)
    (n : String) (h : n ≠ k) : alookup (upsertAppend m k v) n = alookup m n := by
  induction m with
  | nil =>
    have hk : ¬ (k = n) := fun hx => h hx.symm
    simp [upsertAppend, alookup, hk]
  | cons kv rest ih =>
    by_cases hk : kv.1 = k
    · have hn : ¬ (kv.1 = n) := by
        rw [hk]
        exact fun hx => h hx.symm
      simp [upsertAppend, if_pos hk, alookup, hn]
    · simp only [upsertAppend, if_neg hk, alookup]
      by_cases hn : kv.1 = n
      · simp [hn]
      · simp [hn, ih]

theorem alookup_keyFold (nm : String) (ks : List String) (acc : List (String × List String))
    (n : String) :
    alookup (ks.foldl (fun a k => upsertAppend a nm k) acc) n
      = if n = nm then optAppend (alookup acc n) ks else alookup acc n := by
  induction ks generalizing acc with
  | nil => simp [optAppend_nil]
  | cons k ks ih =>
    simp only [List.foldl_cons]
    rw [ih (upsertAppend acc nm k)]
    by_cases h : n = nm
    · subst h
      rw [if_pos rfl, if_pos rfl, alookup_upsertAppend_self, optAppend_some_append]
      cases halt : alookup acc n <;> simp [optAppend, halt]
    · rw [if_neg h, if_neg h, alookup_upsertAppend_ne _ _ _ _ h]

theorem alookup_pairFold {α : Type} (f g : α → String) (rs : List α) :
    ∀ (acc : List (String × List String)) (n : String),
      alookup (rs.foldl (fun a r => upsertAppend a (f r) (g r)) acc) n
        = optAppend (alookup acc n) ((rs.filter (fun r => decide (f r = n))).map g) := by
  induction rs with
  | nil => intro acc n; simp [optAppend_nil]
  | cons r rs ih =>
    intro acc n
    simp only [List.foldl_cons]
    rw [ih (upsertAppend acc (f r) (g r)) n]
    by_cases h : f r = n
    · subst h
      rw [alookup_upsertAppend_self]
      have : (r :: rs).filter (fun r2 => decide (f r2 = f r))
          = r :: rs.filter (fun r2 => decide (f r2 = f r)) := by
        simp [List.filter_cons]
      rw [this, List.map_cons, optAppend_some_append]
      cases halt : alookup acc (f r) <;> simp [optAppend, halt]
    · rw [alookup_upsertAppend_ne _ _ _ _ (fun hx => h hx.symm)]
      have : (r :: rs).filter (fun r2 => decide (f r2 = n))
          = rs.filter (fun r2 => decide (f r2 = n)) := by
        simp [List.filter_cons, h]
      rw [this]

/-- All required sub-keys collected by `MissingKeysObjectParamNames` under a
given parameter name: the concatenated `properties` of every Object-typed
spec with that name. -/
def collectNeededKeys (paramSpecs : List ParamSpec) (n : String) : List String :=
  (paramSpecs.filter (fun s => decide (s.type = ParamType.object ∧ s.name = n))).flatMap
    (fun s => s.properties)

/-- All supplied sub-keys collected by `MissingKeysObjectParamNames` under a
given parameter name: the concatenated `objectVal` keys of every
Object-typed supplied parameter with that name. -/
def collectProvidedKeys (params : List Param) (n : String) : List String :=
  (params.filter (fun p => decide (p.value.type = ParamType.object ∧ p.name = n))).flatMap
    (fun p => p.value.objectVal)

theorem alookup_neededKeysFold (paramSpecs : List ParamSpec) :
    ∀ (acc : List (String × List String)) (n : String),
      alookup (paramSpecs.foldl (fun acc spec =>
          if spec.type = ParamType.object then
            spec.properties.foldl (fun acc2 key => upsertAppend acc2 spec.name key) acc
          else acc) acc) n
        = optAppend (alookup acc n) (collectNeededKeys paramSpecs n) := by
  induction paramSpecs with
  | nil => intro acc n; simp [collectNeededKeys, optAppend_nil]
  | cons spec specs ih =>
    intro acc n
    simp only [List.foldl_cons]
    by_cases hobj : spec.type = ParamType.object
    · rw [if_pos hobj, ih, alookup_keyFold]
      by_cases hn : n = spec.name
      · rw [if_pos hn, optAppend_assoc]
        have : collectNeededKeys (spec :: specs) n
            = spec.properties ++ collectNeededKeys specs n := by
          simp [collectNeededKeys, List.filter_cons, hobj, hn.symm]
        rw [this]
      · rw [if_neg hn]
        have hcond : ¬ (spec.type = ParamType.object ∧ spec.name = n) :=
          fun hx => hn hx.2.symm
        have : collectNeededKeys (spec :: specs) n = collectNeededKeys specs n := by
          simp [collectNeededKeys, List.filter_cons, hcond]
        rw [this]
    · rw [if_neg hobj, ih]
      have : collectNeededKeys (spec :: specs) n = collectNeededKeys specs n := by
        simp [collectNeededKeys, List.filter_cons, hobj]
      rw [this]

theorem alookup_providedKeysFold (params : List Param) :
    ∀ (acc : List (String × List String)) (n : String),
      alookup (params.foldl (fun acc p =>
          if p.value.type = ParamType.object then
            p.value.objectVal.foldl (fun acc2 key => upsertAppend acc2 p.name key) acc
          else acc) acc) n
        = optAppend (alookup acc n) (collectProvidedKeys params n) := by
  induction params with
  | nil => intro acc n; simp [collectProvidedKeys, optAppend_nil]
  | cons p ps ih =>
    intro acc n
    simp only [List.foldl_cons]
    by_cases hobj : p.value.type = ParamType.object
    · rw [if_pos hobj, ih, alookup_keyFold]
      by_cases hn : n = p.name
      · rw [if_pos hn, optAppend_assoc]
        have : collectProvidedKeys (p :: ps) n
            = p.value.objectVal ++ collectProvidedKeys ps n := by
          simp [collectProvidedKeys, List.filter_cons, hobj, hn.symm]
        rw [this]
      · rw [if_neg hn]
        have hcond : ¬ (p.value.type = ParamType.object ∧ p.name = n) :=
          fun hx => hn hx.2.symm
        have : collectProvidedKeys (p :: ps) n = collectProvidedKeys ps n := by
          simp [collectProvidedKeys, List.filter_cons, hcond]
        rw [this]
    · rw [if_neg hobj, ih]
      have : collectProvidedKeys (p :: ps) n = collectProvidedKeys ps n := by
        simp [collectProvidedKeys, List.filter_cons, hobj]
      rw [this]

theorem keys_upsertAppend (m : List (String × List String)) (k v : String) :
    (upsertAppend m k v).map Prod.fst
      = if k ∈ m.map Prod.fst then m.map Prod.fst else m.map Prod.fst ++ [k] := by
  induction m with
  | nil => simp [upsertAppend]
  | cons kv rest ih =>
    by_cases hk : kv.1 = k
    · simp [upsertAppend, hk]
    · have hkk : ¬ (k = kv.1) := fun hx => hk hx.symm
      simp only [upsertAppend, if_neg hk, List.map_cons, ih]
      by_cases hm : k ∈ rest.map Prod.fst
      · simp [hm, hkk]
      · simp [hm, hkk]

theorem nodupKeys_upsertAppend {m : List (String × List String)} (k v : String)
    (h : (m.map Prod.fst).Nodup) : ((upsertAppend m k v).map Prod.fst).Nodup := by
  rw [keys_upsertAppend]
  by_cases hm : k ∈ m.map Prod.fst
  · simpa [hm]
  · simpa [hm, List.nodup_append] using h

theorem nodupKeys_keyFold (nm : String) (ks : List String) :
    ∀ (acc : List (String × List String)), (acc.map Prod.fst).Nodup →
      ((ks.foldl (fun a k => upsertAppend a nm k) acc).map Prod.fst).Nodup := by
  induction ks with
  | nil => intro acc h; exact h
  | cons k ks ih =>
    intro acc h
    exact ih _ (nodupKeys_upsertAppend nm k h)

theorem nodupKeys_neededKeysFold (paramSpecs : List ParamSpec) :
    ∀ (acc : List (String × List String)), (acc.map Prod.fst).Nodup →
      ((paramSpecs.foldl (fun acc spec =>
          if spec.type = ParamType.object then
            spec.properties.foldl (fun acc2 key => upsertAppend acc2 spec.name key) acc
          else acc) acc).map Prod.fst).Nodup := by
  induction paramSpecs with
  | nil => intro acc h; exact h
  | cons spec specs ih =>
    intro acc h
    simp only [List.foldl_cons]
    by_cases hobj : spec.type = ParamType.object
    · rw [if_pos hobj]
      exact ih _ (nodupKeys_keyFold spec.name spec.properties acc h)
    · rw [if_neg hobj]
      exact ih _ h

theorem nodupKeys_providedKeysFold (params : List Param) :
    ∀ (acc : List (String × List String)), (acc.map Prod.fst).Nodup →
      ((params.foldl (fun acc p =>
          if p.value.type = ParamType.object then
            p.value.objectVal.foldl (fun acc2 key => upsertAppend acc2 p.name key) acc
          else acc) acc).map Prod.fst).Nodup := by
  induction params with
  | nil => intro acc h; exact h
  | cons p ps ih =>
    intro acc h
    simp only [List.foldl_cons]
    by_cases hobj : p.value.type = ParamType.object
    · rw [if_pos hobj]
      exact ih _ (nodupKeys_keyFold p.name p.value.objectVal acc h)
    · rw [if_neg hobj]
      exact ih _ h

theorem nodupKeys_pairFold {α : Type} (f g : α → String) (rs : List α) :
    ∀ (acc : List (String × List String)), (acc.map Prod.fst).Nodup →
      ((rs.foldl (fun a r => upsertAppend a (f r) (g r)) acc).map Prod.fst).Nodup := by
  induction rs with
  | nil => intro acc h; exact h
  | cons r rs ih =>
    intro acc h
    exact ih _ (nodupKeys_upsertAppend (f r) (g r) h)

theorem mem_of_alookup {α : Type} {m : List (String × α)} {k : String} {v : α} :
    alookup m k = some v → (k, v) ∈ m := by
  induction m with
  | nil => intro h; simp [alookup] at h
  | cons kv rest ih =>
    intro h
    by_cases hk : kv.1 = k
    · rw [alookup, if_pos hk] at h
      injection h with hv
      obtain ⟨k1, v1⟩ := kv
      simp only at hk hv
      subst hk
      subst hv
      exact List.mem_cons_self _ _
    · rw [alookup, if_neg hk] at h
      exact List.mem_cons_of_mem _ (ih h)

theorem alookup_of_mem_nodup {α : Type} {m : List (String × α)} {k : String} {v : α} :
    (m.map Prod.fst).Nodup → (k, v) ∈ m → alookup m k = some v := by
  induction m with
  | nil => intro _ h; simp at h
  | cons kv rest ih =>
    intro hnd h
    rw [List.map_cons, List.nodup_cons] at hnd
    rcases List.mem_cons.mp h with heq | hmem
    · rw [← heq]
      simp [alookup]
    · have hk : ¬ (kv.1 = k) := by
        intro hx
        rw [hx] at hnd
        exact hnd.1 (List.mem_map.mpr ⟨(k, v), hmem, rfl⟩)
      rw [alookup, if_neg hk]
      exact ih hnd.2 hmem

theorem lookupLast_eq_none_iff {α : Type} {m : List (String × α)} {k : String} :
    lookupLast m k = none ↔ k ∉ m.map Prod.fst := by
  induction m with
  | nil => simp [lookupLast]
  | cons kv rest ih =>
    rw [lookupLast, List.map_cons, List.mem_cons]
    cases hrest : lookupLast rest k with
    | some v =>
      have hk : k ∈ rest.map Prod.fst := by
        by_contra hx
        rw [ih.mpr hx] at hrest
        cases hrest
      simp [hk]
    | none =>
      have hk := ih.mp hrest
      by_cases heq : kv.1 = k
      · simp [heq, hk]
      · have hkk : ¬ (k = kv.1) := fun hx => heq hx.symm
        simp [heq, hk, hkk]

theorem mem_of_lookupLast {α : Type} {m : List (String × α)} {k : String} {v : α} :
    lookupLast m k = some v → (k, v) ∈ m := by
  induction m with
  | nil => intro h; simp [lookupLast] at h
  | cons kv rest ih =>
    intro h
    rw [lookupLast] at h
    cases hrest : lookupLast rest k with
    | some w =>
      rw [hrest] at h
      injection h with hv
      subst hv
      exact List.mem_cons_of_mem _ (ih hrest)
    | none =>
      rw [hrest] at h
      by_cases heq : kv.1 = k
      · rw [if_pos heq] at h
        injection h with hv
        obtain ⟨k1, v1⟩ := kv
        simp only at heq hv
        subst heq
        subst hv
        exact List.mem_cons_self _ _
      · rw [if_neg heq] at h
        cases h

theorem lookupLast_of_mem_nodup {α : Type} {m : List (String × α)} {k : String} {v : α} :
    (m.map Prod.fst).Nodup → (k, v) ∈ m → lookupLast m k = some v := by
  induction m with
  | nil => intro _ h; simp at h
  | cons kv rest ih =>
    intro hnd h
    rw [List.map_cons, List.nodup_cons] at hnd
    rcases List.mem_cons.mp h with heq | hmem
    · obtain ⟨k1, v1⟩ := kv
      injection heq with hk hv
      subst hk
      subst hv
      rw [lookupLast, lookupLast_eq_none_iff.mpr hnd.1]
      simp
    · rw [lookupLast, ih hnd.2 hmem]

theorem mem_findMissingKeys {neededKeys providedKeys : List (String × List String)}
    {n : String} {ms : List String} :
    (n, ms) ∈ findMissingKeys neededKeys providedKeys ↔
      ∃ ks needs, (n, ks) ∈ providedKeys ∧ alookup neededKeys n = some needs ∧
        ms = DiffLeft needs ks ∧ ms ≠ [] := by
  unfold findMissingKeys
  rw [List.mem_filterMap]
  constructor
  · rintro ⟨⟨pn, pks⟩, hmem, hf⟩
    cases halt : alookup neededKeys pn with
    | none =>
      rw [halt] at hf
      cases hf
    | some needs =>
      rw [halt] at hf
      dsimp only at hf
      by_cases hne : DiffLeft needs pks ≠ []
      · rw [if_pos hne] at hf
        injection hf with hpair
        injection hpair with h1 h2
        subst h1
        subst h2
        exact ⟨pks, needs, hmem, halt, rfl, hne⟩
      · rw [if_neg hne] at hf
        cases hf
  · rintro ⟨ks, needs, hmem, halt, hms, hne⟩
    refine ⟨(n, ks), hmem, ?_⟩
    dsimp only
    rw [halt]
    dsimp only
    rw [if_pos (hms ▸ hne), ← hms]

theorem findMissingKeys_eq_nil_iff {neededKeys providedKeys : List (String × List String)} :
    findMissingKeys neededKeys providedKeys = [] ↔
      ∀ pk ∈ providedKeys, ∀ needs, alookup neededKeys pk.1 = some needs →
        DiffLeft needs pk.2 = [] := by
  unfold findMissingKeys
  rw [List.filterMap_eq_nil_iff]
  constructor
  · intro h pk hmem needs halt
    have hf := h pk hmem
    rw [halt] at hf
    dsimp only at hf
    by_contra hne
    rw [if_pos hne] at hf
    cases hf
  · intro h pk hmem
    cases halt : alookup neededKeys pk.1 with
    | none => dsimp only
    | some needs =>
      dsimp only
      rw [if_neg (show ¬ (DiffLeft needs pk.2 ≠ []) from
        fun hne => hne (h pk hmem needs halt))]

theorem collectNeededKeys_eq_of_nodup {paramSpecs : List ParamSpec} {s : ParamSpec} :
    (paramSpecs.map ParamSpec.name).Nodup → s ∈ paramSpecs →
      s.type = ParamType.object →
      collectNeededKeys paramSpecs s.name = s.properties := by
  induction paramSpecs with
  | nil => intro _ h _; simp at h
  | cons b bs ih =>
    intro hnd hmem hobj
    rw [List.map_cons, List.nodup_cons] at hnd
    rcases List.mem_cons.mp hmem with heq | hmem2
    · subst heq
      have hbs : bs.filter
          (fun x => decide (x.type = ParamType.object ∧ x.name = s.name)) = [] := by
        rw [List.filter_eq_nil_iff]
        intro x hx
        simp only [decide_eq_true_eq]
        rintro ⟨_, hc⟩
        exact hnd.1 (hc ▸ List.mem_map.mpr ⟨x, hx, rfl⟩)
      unfold collectNeededKeys
      rw [List.filter_cons,
        if_pos (show decide (s.type = ParamType.object ∧ s.name = s.name) = true by
          simp [hobj]),
        hbs]
      simp
    · have hne : b.name ≠ s.name := by
        intro hx
        exact hnd.1 (hx ▸ List.mem_map.mpr ⟨s, hmem2, rfl⟩)
      have hcond : ¬ (b.type = ParamType.object ∧ b.name = s.name) :=
        fun hc => hne hc.2
      unfold collectNeededKeys
      rw [List.filter_cons,
        if_neg (show ¬ (decide (b.type = ParamType.object ∧ b.name = s.name) = true) by
          simp [hcond])]
      exact ih hnd.2 hmem2 hobj

theorem collectProvidedKeys_eq_of_nodup {params : List Param} {p : Param} :
    (params.map Param.name).Nodup → p ∈ params →
      p.value.type = ParamType.object →
      collectProvidedKeys params p.name = p.value.objectVal := by
  induction params with
  | nil => intro _ h _; simp at h
  | cons b bs ih =>
    intro hnd hmem hobj
    rw [List.map_cons, List.nodup_cons] at hnd
    rcases List.mem_cons.mp hmem with heq | hmem2
    · subst heq
      have hbs : bs.filter
          (fun x => decide (x.value.type = ParamType.object ∧ x.name = p.name)) = [] := by
        rw [List.filter_eq_nil_iff]
        intro x hx
        simp only [decide_eq_true_eq]
        rintro ⟨_, hc⟩
        exact hnd.1 (hc ▸ List.mem_map.mpr ⟨x, hx, rfl⟩)
      unfold collectProvidedKeys
      rw [List.filter_cons,
        if_pos (show decide (p.value.type = ParamType.object ∧ p.name = p.name) = true by
          simp [hobj]),
        hbs]
      simp
    · have hne : b.name ≠ p.name := by
        intro hx
        exact hnd.1 (hx ▸ List.mem_map.mpr ⟨p, hmem2, rfl⟩)
      have hcond : ¬ (b.value.type = ParamType.object ∧ b.name = p.name) :=
        fun hc => hne hc.2
      unfold collectProvidedKeys
      rw [List.filter_cons,
        if_neg (show ¬ (decide (b.value.type = ParamType.object ∧ b.name = p.name) = true) by
          simp [hcond])]
      exact ih hnd.2 hmem2 hobj

theorem lookupLast_paramTypes {paramSpecs : List ParamSpec} {x : String} {t : ParamType}
    (hnd : (paramSpecs.map ParamSpec.name).Nodup) :
    lookupLast (paramSpecs.map (fun s => (s.name, s.type))) x = some t ↔
      ∃ s ∈ paramSpecs, s.name = x ∧ s.type = t := by
  have hkeys : ((paramSpecs.map (fun s => (s.name, s.type))).map Prod.fst).Nodup := by
    rw [List.map_map]
    exact hnd
  constructor
  · intro h
    obtain ⟨s, hs, heq⟩ := List.mem_map.mp (mem_of_lookupLast h)
    injection heq with h1 h2
    exact ⟨s, hs, h1, h2⟩
  · rintro ⟨s, hs, h1, h2⟩
    exact lookupLast_of_mem_nodup hkeys
      (List.mem_map.mpr ⟨s, hs, by rw [h1, h2]⟩)

theorem lookupLast_paramTypes_none {paramSpecs : List ParamSpec} {x : String} :
    lookupLast (paramSpecs.map (fun s => (s.name, s.type))) x = none ↔
      x ∉ paramSpecs.map ParamSpec.name := by
  rw [lookupLast_eq_none_iff, List.map_map]
  exact Iff.rfl

theorem validateParams_eq_none_iff (enableAPIFields : String) (paramSpecs : List ParamSpec)
    (params matrix : List Param) :
    validateParams enableAPIFields paramSpecs params matrix = none ↔
      missingParamsNames (neededParamsNamesAndTypes paramSpecs).1
          (providedParamsNames (params ++ matrix)) paramSpecs = [] ∧
      extraParamsNames enableAPIFields (neededParamsNamesAndTypes paramSpecs).1
          (providedParamsNames (params ++ matrix)) = [] ∧
      wrongTypeParamsNames params matrix (neededParamsNamesAndTypes paramSpecs).2 = [] ∧
      MissingKeysObjectParamNames paramSpecs params = [] := by
  simp only [validateParams]
  split_ifs with h1 h2 h3 h4 <;> simp_all

theorem validateParams_eq_missing (enableAPIFields : String) (paramSpecs : List ParamSpec)
    (params matrix : List Param)
    (h : missingParamsNames (neededParamsNamesAndTypes paramSpecs).1
        (providedParamsNames (params ++ matrix)) paramSpecs ≠ []) :
    validateParams enableAPIFields paramSpecs params matrix
      = some (ParamsError.missing (missingParamsNames (neededParamsNamesAndTypes paramSpecs).1
          (providedParamsNames (params ++ matrix)) paramSpecs)) := by
  simp only [validateParams]
  rw [if_pos h]

theorem validateParams_eq_extra (enableAPIFields : String) (paramSpecs : List ParamSpec)
    (params matrix : List Param)
    (h1 : missingParamsNames (neededParamsNamesAndTypes paramSpecs).1
        (providedParamsNames (params ++ matrix)) paramSpecs = [])
    (h2 : extraParamsNames enableAPIFields (neededParamsNamesAndTypes paramSpecs).1
        (providedParamsNames (params ++ matrix)) ≠ []) :
    validateParams enableAPIFields paramSpecs params matrix
      = some (ParamsError.extra (extraParamsNames enableAPIFields
          (neededParamsNamesAndTypes paramSpecs).1
          (providedParamsNames (params ++ matrix)))) := by
  simp only [validateParams]
  rw [if_neg (by simp [h1]), if_pos h2]

theorem validateParams_eq_wrongType (enableAPIFields : String) (paramSpecs : List ParamSpec)
    (params matrix : List Param)
    (h1 : missingParamsNames (neededParamsNamesAndTypes paramSpecs).1
        (providedParamsNames (params ++ matrix)) paramSpecs = [])
    (h2 : extraParamsNames enableAPIFields (neededParamsNamesAndTypes paramSpecs).1
        (providedParamsNames (params ++ matrix)) = [])
    (h3 : wrongTypeParamsNames params matrix (neededParamsNamesAndTypes paramSpecs).2 ≠ []) :
    validateParams enableAPIFields paramSpecs params matrix
      = some (ParamsError.wrongType
          (wrongTypeParamsNames params matrix (neededParamsNamesAndTypes paramSpecs).2)) := by
  simp only [validateParams]
  rw [if_neg (by simp [h1]), if_neg (by simp [h2]), if_pos h3]

theorem validateParams_eq_missingKeys (enableAPIFields : String) (paramSpecs : List ParamSpec)
    (params matrix : List Param)
    (h1 : missingParamsNames (neededParamsNamesAndTypes paramSpecs).1
        (providedParamsNames (params ++ matrix)) paramSpecs = [])
    (h2 : extraParamsNames enableAPIFields (neededParamsNamesAndTypes paramSpecs).1
        (providedParamsNames (params ++ matrix)) = [])
    (h3 : wrongTypeParamsNames params matrix (neededParamsNamesAndTypes paramSpecs).2 = [])
    (h4 : MissingKeysObjectParamNames paramSpecs params ≠ []) :
    validateParams enableAPIFields paramSpecs params matrix
      = some (ParamsError.missingKeys (MissingKeysObjectParamNames paramSpecs params)) := by
  simp only [validateParams]
  rw [if_neg (by simp [h1]), if_neg (by simp [h2]), if_neg (by simp [h3]), if_pos h4]

theorem validateParams_missing_inv {enableAPIFields : String} {paramSpecs : List ParamSpec}
    {params matrix : List Param} {ns : List String}
    (h : validateParams enableAPIFields paramSpecs params matrix
        = some (ParamsError.missing ns)) :
    ns = missingParamsNames (neededParamsNamesAndTypes paramSpecs).1
        (providedParamsNames (params ++ matrix)) paramSpecs
    ∧ missingParamsNames (neededParamsNamesAndTypes paramSpecs).1
        (providedParamsNames (params ++ matrix)) paramSpecs ≠ [] := by
  simp only [validateParams] at h
  split_ifs at h <;> simp_all

theorem validateParams_extra_inv {enableAPIFields : String} {paramSpecs : List ParamSpec}
    {params matrix : List Param} {ns : List String}
    (h : validateParams enableAPIFields paramSpecs params matrix
        = some (ParamsError.extra ns)) :
    ns = extraParamsNames enableAPIFields (neededParamsNamesAndTypes paramSpecs).1
        (providedParamsNames (params ++ matrix))
    ∧ extraParamsNames enableAPIFields (neededParamsNamesAndTypes paramSpecs).1
        (providedParamsNames (params ++ matrix)) ≠ [] := by
  simp only [validateParams] at h
  split_ifs at h <;> simp_all

theorem validateResources_eq_none_iff (requiredResources : List TaskResource)
    (providedResources : List (String × Option String)) :
    validateResources requiredResources providedResources = none ↔
      DiffLeft ((requiredResources.filter (fun r => !r.optional)).map (fun r => r.name))
          (providedResources.map (fun kv => kv.1)) = [] ∧
      DiffLeft (providedResources.map (fun kv => kv.1))
          ((requiredResources.filter (fun r => !r.optional)).map (fun r => r.name)
            ++ (requiredResources.filter (fun r => r.optional)).map (fun r => r.name)) = [] ∧
      resourcesTypeCheck requiredResources providedResources = none := by
  simp only [validateResources]
  split_ifs with h1 h2 <;> simp_all

theorem validateResources_eq_missing (requiredResources : List TaskResource)
    (providedResources : List (String × Option String))
    (h : DiffLeft ((requiredResources.filter (fun r => !r.optional)).map (fun r => r.name))
        (providedResources.map (fun kv => kv.1)) ≠ []) :
    validateResources requiredResources providedResources
      = some (ResourcesError.missing
          (DiffLeft ((requiredResources.filter (fun r => !r.optional)).map (fun r => r.name))
            (providedResources.map (fun kv => kv.1)))) := by
  simp only [validateResources]
  rw [if_pos h]

theorem validateResources_eq_extra (requiredResources : List TaskResource)
    (providedResources : List (String × Option String))
    (h1 : DiffLeft ((requiredResources.filter (fun r => !r.optional)).map (fun r => r.name))
        (providedResources.map (fun kv => kv.1)) = [])
    (h2 : DiffLeft (providedResources.map (fun kv => kv.1))
        ((requiredResources.filter (fun r => !r.optional)).map (fun r => r.name)
          ++ (requiredResources.filter (fun r => r.optional)).map (fun r => r.name)) ≠ []) :
    validateResources requiredResources providedResources
      = some (ResourcesError.extra
          (DiffLeft (providedResources.map (fun kv => kv.1))
            ((requiredResources.filter (fun r => !r.optional)).map (fun r => r.name)
              ++ (requiredResources.filter (fun r => r.optional)).map (fun r => r.name)))) := by
  simp only [validateResources]
  rw [if_neg (by simp [h1]), if_pos h2]

theorem resourcesTypeCheck_eq_none_iff (rs : List TaskResource)
    (provided : List (String × Option String)) :
    resourcesTypeCheck rs provided = none ↔
      ∀ r ∈ rs, (r.optional = false → ∃ t, mapGet provided r.name = some t) ∧
        (∀ t, mapGet provided r.name = some t → r.type = t) := by
  induction rs with
  | nil => simp [resourcesTypeCheck]
  | cons resource rest ih =>
    rw [resourcesTypeCheck]
    cases hget : mapGet provided resource.name with
    | none =>
      by_cases hopt : resource.optional = false
      · rw [if_pos hopt]
        constructor
        · intro h; cases h
        · intro h
          obtain ⟨t, ht⟩ := (h resource (List.mem_cons_self _ _)).1 hopt
          rw [hget] at ht
          cases ht
      · rw [if_neg hopt, ih]
        constructor
        · intro h r hr
          rcases List.mem_cons.mp hr with heq | hmem
          · subst heq
            refine ⟨fun hf => absurd hf hopt, fun t ht => ?_⟩
            rw [hget] at ht
            cases ht
          · exact h r hmem
        · intro h r hr
          exact h r (List.mem_cons_of_mem _ hr)
    | some t =>
      dsimp only
      by_cases hty : resource.type ≠ t
      · rw [if_pos hty]
        constructor
        · intro h; cases h
        · intro h
          exact absurd ((h resource (List.mem_cons_self _ _)).2 t hget) hty
      · rw [if_neg hty, ih]
        push_neg at hty
        constructor
        · intro h r hr
          rcases List.mem_cons.mp hr with heq | hmem
          · subst heq
            refine ⟨fun _ => ⟨t, hget⟩, fun u hu => ?_⟩
            rw [hget] at hu
            injection hu with hu
            rw [← hu]
            exact hty
          · exact h r hmem
        · intro h r hr
          exact h r (List.mem_cons_of_mem _ hr)

theorem resourcesTypeCheck_resourceMissing_inv {rs : List TaskResource}
    {provided : List (String × Option String)} {n : String}
    (h : resourcesTypeCheck rs provided = some (ResourcesError.resourceMissing n)) :
    ∃ r ∈ rs, r.optional = false ∧ mapGet provided r.name = none ∧ n = r.name := by
  induction rs with
  | nil => simp [resourcesTypeCheck] at h
  | cons resource rest ih =>
    rw [resourcesTypeCheck] at h
    cases hget : mapGet provided resource.name with
    | none =>
      rw [hget] at h
      dsimp only at h
      by_cases hopt : resource.optional = false
      · rw [if_pos hopt] at h
        injection h with h
        injection h with h
        exact ⟨resource, List.mem_cons_self _ _, hopt, hget, h.symm⟩
      · rw [if_neg hopt] at h
        obtain ⟨r, hr, hprops⟩ := ih h
        exact ⟨r, List.mem_cons_of_mem _ hr, hprops⟩
    | some t =>
      rw [hget] at h
      dsimp only at h
      by_cases hty : resource.type ≠ t
      · rw [if_pos hty] at h
        injection h with h
        cases h
      · rw [if_neg hty] at h
        obtain ⟨r, hr, hprops⟩ := ih h
        exact ⟨r, List.mem_cons_of_mem _ hr, hprops⟩

theorem mapGet_some_of_mem_nonnil {provided : List (String × Option String)} {name : String}
    (hmem : name ∈ provided.map (fun kv => kv.1))
    (hnn : ∀ kv ∈ provided, kv.2 ≠ none) :
    ∃ t, mapGet provided name = some t := by
  obtain ⟨kv, hkv, hx⟩ := List.mem_map.mp hmem
  have hfind : (provided.find? (fun kv => decide (kv.1 = name))).isSome := by
    rw [List.find?_isSome]
    exact ⟨kv, hkv, by simp [hx]⟩
  obtain ⟨kv0, hkv0⟩ := Option.isSome_iff_exists.mp hfind
  have hkv0mem := List.mem_of_find?_eq_some hkv0
  cases hval : kv0.2 with
  | none => exact absurd hval (hnn kv0 hkv0mem)
  | some t =>
    refine ⟨t, ?_⟩
    unfold mapGet
    rw [hkv0]
    dsimp only
    exact hval

theorem mem_requiredOptional {rr : List TaskResource} {x : String} :
    x ∈ ((rr.filter (fun r => !r.optional)).map (fun r => r.name)
        ++ (rr.filter (fun r => r.optional)).map (fun r => r.name)) ↔
      x ∈ rr.map (fun r => r.name) := by
  simp only [List.mem_append, List.mem_map, List.mem_filter]
  constructor
  · rintro (⟨r, ⟨hr, _⟩, hx⟩ | ⟨r, ⟨hr, _⟩, hx⟩) <;> exact ⟨r, hr, hx⟩
  · rintro ⟨r, hr, hx⟩
    cases hopt : r.optional
    · left
      exact ⟨r, ⟨hr, by simp [hopt]⟩, hx⟩
    · right
      exact ⟨r, ⟨hr, by simp [hopt]⟩, hx⟩

theorem optAppend_none (l : List String) :
    optAppend none l = if l = [] then none else some l := by
  by_cases h : l = [] <;> simp [optAppend, h]

theorem mem_missingParamsNames {neededParams providedParams : List String}
    {paramSpecs : List ParamSpec} {x : String} :
    x ∈ missingParamsNames neededParams providedParams paramSpecs ↔
      x ∈ DiffLeft neededParams providedParams ∧
        ∃ s ∈ paramSpecs, s.name = x ∧ s.default = none := by
  unfold missingParamsNames
  rw [List.mem_flatMap]
  constructor
  · rintro ⟨nm, hnm, hx⟩
    obtain ⟨s, hs, hf⟩ := List.mem_filterMap.mp hx
    by_cases hc : s.name = nm ∧ s.default = none
    · rw [if_pos hc] at hf
      injection hf with hf
      subst hf
      exact ⟨hnm, s, hs, hc⟩
    · rw [if_neg hc] at hf
      cases hf
  · rintro ⟨hdiff, s, hs, hsx, hdef⟩
    refine ⟨x, hdiff, List.mem_filterMap.mpr ⟨s, hs, ?_⟩⟩
    rw [if_pos ⟨hsx, hdef⟩]

theorem filterMap_if_eq_map_filter {α β : Type} (p : α → Prop) [DecidablePred p]
    (g : α → β) (l : List α) :
    l.filterMap (fun a => if p a then none else some (g a))
      = (l.filter (fun a => decide (¬ p a))).map g := by
  induction l with
  | nil => rfl
  | cons a l ih =>
    by_cases h : p a
    · simp [List.filterMap_cons, List.filter_cons, h, ih]
    · simp [List.filterMap_cons, List.filter_cons, h, ih]

/-- All declared result types collected by `mismatchedTypesResults` under a
given result name. -/
def declaredTypesOf (specResults : List TaskResult) (n : String) : List String :=
  (specResults.filter (fun r => decide (r.name = n))).map (fun r => r.type)

/-- All emitted result types collected by `mismatchedTypesResults` under a
given result name. -/
def emittedTypesOf (taskRunResults : List TaskRunResult) (n : String) : List String :=
  (taskRunResults.filter (fun r => decide (r.name = n))).map (fun r => r.type)

theorem alookup_declaredTypesFold (specResults : List TaskResult)
    (acc : List (String × List String)) (n : String) :
    alookup (specResults.foldl (fun acc r => upsertAppend acc r.name r.type) acc) n
      = optAppend (alookup acc n) (declaredTypesOf specResults n) :=
  alookup_pairFold (fun r => r.name) (fun r => r.type) specResults acc n

theorem alookup_emittedTypesFold (taskRunResults : List TaskRunResult)
    (acc : List (String × List String)) (n : String) :
    alookup (taskRunResults.foldl (fun acc trr => upsertAppend acc trr.name trr.type) acc) n
      = optAppend (alookup acc n) (emittedTypesOf taskRunResults n) :=
  alookup_pairFold (fun r => r.name) (fun r => r.type) taskRunResults acc n

theorem validateStepOverrides_eq (ts : TaskSpec) (trs : TaskRunSpec) :
    validateStepOverrides ts trs
      = (trs.stepOverrides.filter
          (fun so => decide (so.name ∉ ts.steps.map (fun s => s.name)))).map
          (fun so => "invalid StepOverride: No Step named " ++ so.name) := by
  unfold validateStepOverrides
  exact filterMap_if_eq_map_filter _ _ _

theorem validateSidecarOverrides_eq (ts : TaskSpec) (trs : TaskRunSpec) :
    validateSidecarOverrides ts trs
      = (trs.sidecarOverrides.filter
          (fun so => decide (so.name ∉ ts.sidecars.map (fun s => s.name)))).map
          (fun so => "invalid SidecarOverride: No Sidecar named " ++ so.name) := by
  unfold validateSidecarOverrides
  exact filterMap_if_eq_map_filter _ _ _

theorem validateStepOverrides_eq_nil_iff (ts : TaskSpec) (trs : TaskRunSpec) :
    validateStepOverrides ts trs = [] ↔
      ∀ so ∈ trs.stepOverrides, so.name ∈ ts.steps.map (fun s => s.name) := by
  rw [validateStepOverrides_eq]
  simp [List.filter_eq_nil_iff]

theorem validateSidecarOverrides_eq_nil_iff (ts : TaskSpec) (trs : TaskRunSpec) :
    validateSidecarOverrides ts trs = [] ↔
      ∀ so ∈ trs.sidecarOverrides, so.name ∈ ts.sidecars.map (fun s => s.name) := by
  rw [validateSidecarOverrides_eq]
  simp [List.filter_eq_nil_iff]

theorem mem_MissingKeysObjectParamNames {paramSpecs : List ParamSpec}
    {params : List Param} {n : String} {ms : List String} :
    (n, ms) ∈ MissingKeysObjectParamNames paramSpecs params ↔
      collectProvidedKeys params n ≠ [] ∧ collectNeededKeys paramSpecs n ≠ [] ∧
        ms = DiffLeft (collectNeededKeys paramSpecs n) (collectProvidedKeys params n) ∧
        ms ≠ [] := by
  simp only [MissingKeysObjectParamNames]
  rw [mem_findMissingKeys]
  have hA : alookup (paramSpecs.foldl (fun acc spec =>
      if spec.type = ParamType.object then
        spec.properties.foldl (fun acc2 key => upsertAppend acc2 spec.name key) acc
      else acc) []) n = optAppend none (collectNeededKeys paramSpecs n) :=
    alookup_neededKeysFold paramSpecs [] n
  have hB : alookup (params.foldl (fun acc p =>
      if p.value.type = ParamType.object then
        p.value.objectVal.foldl (fun acc2 key => upsertAppend acc2 p.name key) acc
      else acc) []) n = optAppend none (collectProvidedKeys params n) :=
    alookup_providedKeysFold params [] n
  have hC : ((params.foldl (fun acc p =>
      if p.value.type = ParamType.object then
        p.value.objectVal.foldl (fun acc2 key => upsertAppend acc2 p.name key) acc
      else acc) []).map Prod.fst).Nodup :=
    nodupKeys_providedKeysFold params [] (by simp)
  constructor
  · rintro ⟨ks, needs, hmem, halt, hms, hne⟩
    have hksl := alookup_of_mem_nodup hC hmem
    rw [hB, optAppend_none] at hksl
    by_cases hemp : collectProvidedKeys params n = []
    · rw [if_pos hemp] at hksl
      cases hksl
    · rw [if_neg hemp] at hksl
      injection hksl with hksl
      rw [hA, optAppend_none] at halt
      by_cases hdecl : collectNeededKeys paramSpecs n = []
      · rw [if_pos hdecl] at halt
        cases halt
      · rw [if_neg hdecl] at halt
        injection halt with halt
        refine ⟨hemp, hdecl, ?_, hne⟩
        rw [hms, ← halt, ← hksl]
  · rintro ⟨hemp, hdecl, hms, hne⟩
    refine ⟨collectProvidedKeys params n, collectNeededKeys paramSpecs n, ?_, ?_, hms, hne⟩
    · apply mem_of_alookup
      rw [hB, optAppend_none, if_neg hemp]
    · rw [hA, optAppend_none, if_neg hdecl]

/-! ### Claim theorems -/

/-- Claim C9 (code-bug evidence): when a declared required resource of type
"git" is provided with a binding of type "image", `validateResources`
returns the type-mismatch error whose should-be slot carries the provided
type "image" and whose was slot carries the declared type "git" — the
reverse of the labelling the claim (and the message's own wording)
requires. -/
theorem c9_typeMismatch_slots_swapped :
    validateResources [{ name := "r", type := "git", optional := false }]
        [("r", some "image")]
      = some (ResourcesError.typeMismatch "r" "image" "git") := by
  decide

/-- Claim C10: under the precondition that every value of the provided map
is a non-nil binding, `validateResources` never returns the per-resource
"resource is missing" error (the branch is unreachable once the initial
missing-names check passes); and without that precondition a required name
explicitly bound to nil reaches the branch, returning the
resource-is-missing error rather than the missing-names error. -/
theorem c10_resourceMissing_unreachable (requiredResources : List TaskResource)
    (providedResources : List (String × Option String))
    (hnonnil : ∀ kv ∈ providedResources, kv.2 ≠ none) :
    (∀ n, validateResources requiredResources providedResources
        ≠ some (ResourcesError.resourceMissing n))
    ∧ validateResources [{ name := "r", type := "git", optional := false }]
        [("r", none)] = some (ResourcesError.resourceMissing "r") := by
  constructor
  · intro n hcontra
    simp only [validateResources] at hcontra
    split_ifs at hcontra with h1 h2
    · simp at hcontra
    · simp at hcontra
    · rw [not_not] at h1
      obtain ⟨r, hr, hopt, hget, _⟩ := resourcesTypeCheck_resourceMissing_inv hcontra
      have hmemprov : r.name ∈ providedResources.map (fun kv => kv.1) := by
        have hreq : r.name
            ∈ (requiredResources.filter (fun r => !r.optional)).map (fun r => r.name) :=
          List.mem_map.mpr ⟨r, List.mem_filter.mpr ⟨hr, by simp [hopt]⟩, rfl⟩
        exact DiffLeft_eq_nil_iff.mp h1 _ hreq
      obtain ⟨t, ht⟩ := mapGet_some_of_mem_nonnil hmemprov hnonnil
      rw [hget] at ht
      cases ht
  · decide

/-- Witness for C10 at a concrete input: a one-entry provided map with a
non-nil binding satisfies the precondition, and the resource-is-missing
error is indeed impossible there. -/
theorem c10_witness :
    (∀ kv ∈ ([("r", some "git")] : List (String × Option String)), kv.2 ≠ none) ∧
      validateResources [{ name := "r", type := "git", optional := false }]
          [("r", some "git")] ≠ some (ResourcesError.resourceMissing "r") := by
  constructor
  · decide
  · exact (c10_resourceMissing_unreachable _ _ (by decide)).1 "r"

/-- Claim C8: `validateOverrides` aggregates one sub-error per step override
naming no declared step and one per sidecar override naming no declared
sidecar (steps first, then sidecars), returns nil exactly when the
aggregate is empty, and success is equivalent to every override in both
categories naming a declared step/sidecar. -/
theorem c8_validateOverrides (ts : TaskSpec) (trs : TaskRunSpec) :
    (∀ errs, validateOverrides ts trs = some errs →
      errs = validateStepOverrides ts trs ++ validateSidecarOverrides ts trs ∧
      errs.length
        = (trs.stepOverrides.filter
            (fun so => decide (so.name ∉ ts.steps.map (fun s => s.name)))).length
          + (trs.sidecarOverrides.filter
            (fun so => decide (so.name ∉ ts.sidecars.map (fun s => s.name)))).length)
    ∧ (validateOverrides ts trs = none ↔
        (∀ so ∈ trs.stepOverrides, so.name ∈ ts.steps.map (fun s => s.name)) ∧
        (∀ so ∈ trs.sidecarOverrides, so.name ∈ ts.sidecars.map (fun s => s.name))) := by
  constructor
  · intro errs h
    unfold validateOverrides at h
    by_cases hnil : validateStepOverrides ts trs ++ validateSidecarOverrides ts trs = []
    · rw [if_pos hnil] at h
      cases h
    · rw [if_neg hnil] at h
      injection h with h
      subst h
      refine ⟨rfl, ?_⟩
      rw [List.length_append, validateStepOverrides_eq, validateSidecarOverrides_eq,
        List.length_map, List.length_map]
  · unfold validateOverrides
    by_cases hnil : validateStepOverrides ts trs ++ validateSidecarOverrides ts trs = []
    · rw [if_pos hnil]
      obtain ⟨h1, h2⟩ := List.append_eq_nil.mp hnil
      simp only [true_iff]
      exact ⟨(validateStepOverrides_eq_nil_iff ts trs).mp h1,
        (validateSidecarOverrides_eq_nil_iff ts trs).mp h2⟩
    · rw [if_neg hnil]
      constructor
      · intro h
        cases h
      · rintro ⟨h1, h2⟩
        exact absurd (by
          rw [(validateStepOverrides_eq_nil_iff ts trs).mpr h1,
            (validateSidecarOverrides_eq_nil_iff ts trs).mpr h2]
          rfl) hnil

/-- Witness for C8: one declared step `build` and sidecar `sidecar1`, one
bad step override `deploy` and one bad sidecar override `sidecar2`: the
aggregate holds both causes, in step-then-sidecar order, with length two. -/
theorem c8_witness :
    (["invalid StepOverride: No Step named deploy",
      "invalid SidecarOverride: No Sidecar named sidecar2"] : List String)
      = validateStepOverrides
          { steps := [{ name := "build" }], sidecars := [{ name := "sidecar1" }] }
          { stepOverrides := [{ name := "deploy" }],
            sidecarOverrides := [{ name := "sidecar2" }] }
        ++ validateSidecarOverrides
          { steps := [{ name := "build" }], sidecars := [{ name := "sidecar1" }] }
          { stepOverrides := [{ name := "deploy" }],
            sidecarOverrides := [{ name := "sidecar2" }] }
    ∧ (["invalid StepOverride: No Step named deploy",
        "invalid SidecarOverride: No Sidecar named sidecar2"] : List String).length
      = (([{ name := "deploy" }] : List Override).filter
          (fun so => decide (so.name ∉ ([{ name := "build" }] : List Step).map
            (fun s => s.name)))).length
        + (([{ name := "sidecar2" }] : List Override).filter
          (fun so => decide (so.name ∉ ([{ name := "sidecar1" }] : List Sidecar).map
            (fun s => s.name)))).length :=
  (c8_validateOverrides
      { steps := [{ name := "build" }], sidecars := [{ name := "sidecar1" }] }
      { stepOverrides := [{ name := "deploy" }],
        sidecarOverrides := [{ name := "sidecar2" }] }).1
    _ (by decide)

/-- Claim C7 counterexample: the result name `out` is declared twice, with
type String and with type Array; the emitted `out` has type String, which
is in the declared type set, yet a mismatch entry is recorded for `out`
(reporting the other declared type Array as missing). -/
theorem c7_counterexample :
    mismatchedTypesResults [{ name := "out", type := "string" }]
        [{ name := "out", type := "string" }, { name := "out", type := "array" }]
      = [("out", ["array"])]
    ∧ "string" ∈ ["string", "array"] :=
  ⟨by decide, by decide⟩

/-- Claim C7 (amended): `mismatchedTypesResults` records an entry for a name
exactly when the name is both emitted and declared and some declared type
for it is absent from its emitted types; the recorded list is the
declared-minus-emitted type difference.  With a single declaration and
single emission per name this degenerates to type inequality, but when a
name is declared with two distinct types of which only one is emitted, a
mismatch is recorded even though the emitted type is in the declared set. -/
theorem c7_mismatchedTypesResults (taskRunResults : List TaskRunResult)
    (specResults : List TaskResult) (n : String) (ms : List String) :
    (n, ms) ∈ mismatchedTypesResults taskRunResults specResults ↔
      emittedTypesOf taskRunResults n ≠ [] ∧ declaredTypesOf specResults n ≠ [] ∧
        ms = DiffLeft (declaredTypesOf specResults n) (emittedTypesOf taskRunResults n) ∧
        ms ≠ [] := by
  unfold mismatchedTypesResults
  rw [mem_findMissingKeys]
  have hA : alookup (specResults.foldl (fun acc r => upsertAppend acc r.name r.type) []) n
      = optAppend none (declaredTypesOf specResults n) :=
    alookup_declaredTypesFold specResults [] n
  have hB : alookup
        (taskRunResults.foldl (fun acc trr => upsertAppend acc trr.name trr.type) []) n
      = optAppend none (emittedTypesOf taskRunResults n) :=
    alookup_emittedTypesFold taskRunResults [] n
  have hC : (((taskRunResults.foldl
        (fun acc trr => upsertAppend acc trr.name trr.type) [])).map Prod.fst).Nodup :=
    nodupKeys_pairFold (fun r => r.name) (fun r => r.type) taskRunResults [] (by simp)
  constructor
  · rintro ⟨ks, needs, hmem, halt, hms, hne⟩
    have hksl := alookup_of_mem_nodup hC hmem
    rw [hB, optAppend_none] at hksl
    by_cases hemp : emittedTypesOf taskRunResults n = []
    · rw [if_pos hemp] at hksl
      cases hksl
    · rw [if_neg hemp] at hksl
      injection hksl with hksl
      rw [hA, optAppend_none] at halt
      by_cases hdecl : declaredTypesOf specResults n = []
      · rw [if_pos hdecl] at halt
        cases halt
      · rw [if_neg hdecl] at halt
        injection halt with halt
        refine ⟨hemp, hdecl, ?_, hne⟩
        rw [hms, ← halt, ← hksl]
  · rintro ⟨hemp, hdecl, hms, hne⟩
    refine ⟨emittedTypesOf taskRunResults n, declaredTypesOf specResults n, ?_, ?_, hms, hne⟩
    · apply mem_of_alookup
      rw [hB, optAppend_none, if_neg hemp]
    · rw [hA, optAppend_none, if_neg hdecl]

/-- Witness for C7 (amended) at a concrete input: an emitted `out` of type
String against declarations String and Array yields the mismatch entry
`out` to `[array]`. -/
theorem c7_witness :
    ("out", ["array"]) ∈ mismatchedTypesResults [{ name := "out", type := "string" }]
      [{ name := "out", type := "string" }, { name := "out", type := "array" }] :=
  (c7_mismatchedTypesResults _ _ _ _).mpr (by decide)

/-- Claim C2: a name enters `wrongTypeParamsNames` exactly when it comes
from an ordinary parameter whose name matches a declared spec of a
different type than its runtime value type, or from a matrix parameter
whose name matches a declared spec whose declared type is not String (the
matrix entry's own runtime type playing no role); names matching no
declared spec are never recorded. -/
theorem c2_wrongTypeParamsNames (paramSpecs : List ParamSpec) (params matrix : List Param)
    (hnd : (paramSpecs.map ParamSpec.name).Nodup) (x : String) :
    x ∈ wrongTypeParamsNames params matrix (neededParamsNamesAndTypes paramSpecs).2 ↔
      ((∃ p ∈ params, p.name = x ∧ ∃ s ∈ paramSpecs, s.name = x ∧ p.value.type ≠ s.type) ∨
       (∃ p ∈ matrix, p.name = x ∧
          ∃ s ∈ paramSpecs, s.name = x ∧ s.type ≠ ParamType.string)) := by
  have hnt : (neededParamsNamesAndTypes paramSpecs).2
      = paramSpecs.map (fun s => (s.name, s.type)) := rfl
  rw [hnt]
  unfold wrongTypeParamsNames
  rw [List.mem_append, List.mem_filterMap, List.mem_filterMap]
  constructor
  · rintro (⟨p, hp, hf⟩ | ⟨p, hp, hf⟩)
    · cases hlook : lookupLast (paramSpecs.map (fun s => (s.name, s.type))) p.name with
      | none =>
        rw [hlook] at hf
        cases hf
      | some t =>
        rw [hlook] at hf
        dsimp only at hf
        by_cases hne : p.value.type ≠ t
        · rw [if_pos hne] at hf
          injection hf with hf
          subst hf
          obtain ⟨s, hs, hsn, hst⟩ := (lookupLast_paramTypes hnd).mp hlook
          refine Or.inl ⟨p, hp, rfl, s, hs, hsn, ?_⟩
          rw [hst]
          exact hne
        · rw [if_neg hne] at hf
          cases hf
    · cases hlook : lookupLast (paramSpecs.map (fun s => (s.name, s.type))) p.name with
      | none =>
        rw [hlook] at hf
        cases hf
      | some t =>
        rw [hlook] at hf
        dsimp only at hf
        by_cases hne : t ≠ ParamType.string
        · rw [if_pos hne] at hf
          injection hf with hf
          subst hf
          obtain ⟨s, hs, hsn, hst⟩ := (lookupLast_paramTypes hnd).mp hlook
          refine Or.inr ⟨p, hp, rfl, s, hs, hsn, ?_⟩
          rw [hst]
          exact hne
        · rw [if_neg hne] at hf
          cases hf
  · rintro (⟨p, hp, hpx, s, hs, hsx, hne⟩ | ⟨p, hp, hpx, s, hs, hsx, hne⟩)
    · refine Or.inl ⟨p, hp, ?_⟩
      have hlook : lookupLast (paramSpecs.map (fun s => (s.name, s.type))) p.name
          = some s.type :=
        (lookupLast_paramTypes hnd).mpr ⟨s, hs, hsx.trans hpx.symm, rfl⟩
      rw [hlook]
      dsimp only
      rw [if_pos hne, hpx]
    · refine Or.inr ⟨p, hp, ?_⟩
      have hlook : lookupLast (paramSpecs.map (fun s => (s.name, s.type))) p.name
          = some s.type :=
        (lookupLast_paramTypes hnd).mpr ⟨s, hs, hsx.trans hpx.symm, rfl⟩
      rw [hlook]
      dsimp only
      rw [if_pos hne, hpx]

/-- Witness for C2: matrix parameter `a` carrying a String-typed runtime
value against an Array-typed declaration is recorded as wrong-type. -/
theorem c2_witness :
    "a" ∈ wrongTypeParamsNames []
        [{ name := "a", value := { type := ParamType.string, objectVal := [] } }]
        (neededParamsNamesAndTypes
          [{ name := "a", type := ParamType.array, default := none,
             properties := [] }]).2 :=
  (c2_wrongTypeParamsNames _ _ _ (by decide) "a").mpr (by decide)

/-- Claim C3 counterexample: with one declared no-default parameter `a` and
only the undeclared parameter `b` supplied under a non-alpha context, a
provided name is undeclared, yet `validateParams` returns the
missing-parameters error, not the unexpected-parameters error the claim
promises for every such input. -/
theorem c3_counterexample :
    validateParams "stable"
        [{ name := "a", type := ParamType.string, default := none, properties := [] }]
        [{ name := "b", value := { type := ParamType.string, objectVal := [] } }] []
      = some (ParamsError.missing ["a"]) := by
  decide

/-- Claim C3 (amended): provided the missing-without-default check passes,
a non-alpha context fails with the unexpected-parameters error whenever
some provided name (ordinary or matrix) is undeclared; under the alpha
context the extra check yields nothing, `validateParams` can never return
the extra error, and (when the remaining checks also pass) the same call
succeeds with undeclared extra parameters supplied. -/
theorem c3_extraParams (enableAPIFields : String) (paramSpecs : List ParamSpec)
    (params matrix : List Param)
    (hm : missingParamsNames (neededParamsNamesAndTypes paramSpecs).1
        (providedParamsNames (params ++ matrix)) paramSpecs = []) :
    (enableAPIFields ≠ "alpha" →
      (∃ p ∈ params ++ matrix, p.name ∉ (neededParamsNamesAndTypes paramSpecs).1) →
      validateParams enableAPIFields paramSpecs params matrix
        = some (ParamsError.extra (DiffLeft (providedParamsNames (params ++ matrix))
            (neededParamsNamesAndTypes paramSpecs).1)))
    ∧ extraParamsNames "alpha" (neededParamsNamesAndTypes paramSpecs).1
        (providedParamsNames (params ++ matrix)) = []
    ∧ (∀ ns, validateParams "alpha" paramSpecs params matrix
        ≠ some (ParamsError.extra ns))
    ∧ (wrongTypeParamsNames params matrix (neededParamsNamesAndTypes paramSpecs).2 = [] →
        MissingKeysObjectParamNames paramSpecs params = [] →
        validateParams "alpha" paramSpecs params matrix = none) := by
  have halpha : extraParamsNames "alpha" (neededParamsNamesAndTypes paramSpecs).1
      (providedParamsNames (params ++ matrix)) = [] := by
    unfold extraParamsNames
    simp
  refine ⟨?_, halpha, ?_, ?_⟩
  · rintro hflag ⟨p, hp, hnp⟩
    have hex : extraParamsNames enableAPIFields (neededParamsNamesAndTypes paramSpecs).1
        (providedParamsNames (params ++ matrix))
        = DiffLeft (providedParamsNames (params ++ matrix))
            (neededParamsNamesAndTypes paramSpecs).1 := by
      unfold extraParamsNames
      rw [if_pos hflag]
    have hpP : p.name ∈ providedParamsNames (params ++ matrix) :=
      List.mem_map.mpr ⟨p, hp, rfl⟩
    have hne : DiffLeft (providedParamsNames (params ++ matrix))
        (neededParamsNamesAndTypes paramSpecs).1 ≠ [] :=
      DiffLeft_ne_nil_iff.mpr ⟨p.name, hpP, hnp⟩
    rw [validateParams_eq_extra enableAPIFields paramSpecs params matrix hm
      (by rw [hex]; exact hne), hex]
  · intro ns h
    exact (validateParams_extra_inv h).2 halpha
  · intro hw hk
    exact (validateParams_eq_none_iff _ _ _ _).mpr ⟨hm, halpha, hw, hk⟩

/-- Witness for C3 at the claim's own example: declared `a` supplied
correctly plus an extra undeclared `b`: fails with the unexpected-parameters
error under "stable" and passes under "alpha". -/
theorem c3_witness :
    validateParams "stable"
        [{ name := "a", type := ParamType.string, default := none, properties := [] }]
        [{ name := "a", value := { type := ParamType.string, objectVal := [] } },
         { name := "b", value := { type := ParamType.string, objectVal := [] } }] []
      = some (ParamsError.extra (DiffLeft (providedParamsNames
          ([{ name := "a", value := { type := ParamType.string, objectVal := [] } },
            { name := "b", value := { type := ParamType.string, objectVal := [] } }] ++ []))
          (neededParamsNamesAndTypes
            [{ name := "a", type := ParamType.string, default := none,
               properties := [] }]).1))
    ∧ validateParams "alpha"
        [{ name := "a", type := ParamType.string, default := none, properties := [] }]
        [{ name := "a", value := { type := ParamType.string, objectVal := [] } },
         { name := "b", value := { type := ParamType.string, objectVal := [] } }] []
      = none := by
  have h := c3_extraParams "stable"
      [{ name := "a", type := ParamType.string, default := none, properties := [] }]
      [{ name := "a", value := { type := ParamType.string, objectVal := [] } },
       { name := "b", value := { type := ParamType.string, objectVal := [] } }] []
      (by decide)
  exact ⟨h.1 (by decide) (by decide), h.2.2.2 (by decide) (by decide)⟩

/-- Claim C4: the missing-parameters list holds exactly the names declared
by some no-default spec and supplied by neither the ordinary nor the matrix
list; when it is non-empty `validateParams` fails with the
missing-parameters error naming it; and when every no-default declared
name is supplied, the missing-parameters error is never returned (in
particular, declared parameters with defaults and no supplied value do not
trigger it). -/
theorem c4_missingParamsNames (enableAPIFields : String) (paramSpecs : List ParamSpec)
    (params matrix : List Param) :
    (∀ x, x ∈ missingParamsNames (neededParamsNamesAndTypes paramSpecs).1
          (providedParamsNames (params ++ matrix)) paramSpecs ↔
        (x ∉ providedParamsNames (params ++ matrix) ∧
          ∃ s ∈ paramSpecs, s.name = x ∧ s.default = none))
    ∧ (missingParamsNames (neededParamsNamesAndTypes paramSpecs).1
          (providedParamsNames (params ++ matrix)) paramSpecs ≠ [] →
        validateParams enableAPIFields paramSpecs params matrix
          = some (ParamsError.missing (missingParamsNames
              (neededParamsNamesAndTypes paramSpecs).1
              (providedParamsNames (params ++ matrix)) paramSpecs)))
    ∧ ((∀ s ∈ paramSpecs, s.default = none →
          s.name ∈ providedParamsNames (params ++ matrix)) →
        ∀ ns, validateParams enableAPIFields paramSpecs params matrix
          ≠ some (ParamsError.missing ns)) := by
  refine ⟨?_, ?_, ?_⟩
  · intro x
    rw [mem_missingParamsNames]
    constructor
    · rintro ⟨hd, hs⟩
      exact ⟨(mem_DiffLeft.mp hd).2, hs⟩
    · rintro ⟨hnp, s, hs, hsx, hdef⟩
      exact ⟨mem_DiffLeft.mpr ⟨List.mem_map.mpr ⟨s, hs, hsx⟩, hnp⟩, s, hs, hsx, hdef⟩
  · intro h
    exact validateParams_eq_missing _ _ _ _ h
  · intro hall ns h
    obtain ⟨_, hne⟩ := validateParams_missing_inv h
    obtain ⟨x, hx⟩ := List.exists_mem_of_ne_nil _ hne
    rw [mem_missingParamsNames] at hx
    obtain ⟨hd, s, hs, hsx, hdef⟩ := hx
    exact (mem_DiffLeft.mp hd).2 (hsx ▸ hall s hs hdef)

/-- Witness for C4: declared `a` without default and `c` with default,
nothing supplied: `validateParams` fails with the missing-parameters error
(naming only `a`, per the membership characterization). -/
theorem c4_witness :
    validateParams "stable"
        [{ name := "a", type := ParamType.string, default := none, properties := [] },
         { name := "c", type := ParamType.string,
           default := some { type := ParamType.string, objectVal := [] },
           properties := [] }]
        [] []
      = some (ParamsError.missing (missingParamsNames
          (neededParamsNamesAndTypes
            [{ name := "a", type := ParamType.string, default := none, properties := [] },
             { name := "c", type := ParamType.string,
               default := some { type := ParamType.string, objectVal := [] },
               properties := [] }]).1
          (providedParamsNames (([] : List Param) ++ []))
          [{ name := "a", type := ParamType.string, default := none, properties := [] },
           { name := "c", type := ParamType.string,
             default := some { type := ParamType.string, objectVal := [] },
             properties := [] }])) :=
  (c4_missingParamsNames "stable" _ [] []).2.1 (by decide)

/-- Claim C5 counterexample: declared `cfg` of Object type with required
keys `k1, k2`; the supplied `cfg` is Object-typed but supplies no sub-key
at all, so declared-minus-supplied is all of `k1, k2`, yet the check
reports nothing (the empty-keyed supplied value never enters the
provided-keys map). -/
theorem c5_counterexample :
    MissingKeysObjectParamNames
        [{ name := "cfg", type := ParamType.object, default := none,
           properties := ["k1", "k2"] }]
        [{ name := "cfg", value := { type := ParamType.object, objectVal := [] } }]
      = []
    ∧ DiffLeft ["k1", "k2"] [] = ["k1", "k2"] :=
  ⟨by decide, by decide⟩

/-- Claim C5 (amended): for uniquely-named specs and supplied parameters,
every supplied Object-typed ordinary parameter that supplies at least one
sub-key and whose name matches a declared Object-typed spec is reported
with exactly the declared-minus-supplied key difference when that
difference is non-empty, and not reported at all when every declared key
is supplied (extra supplied sub-keys are ignored); every reported key is a
declared required key of an Object-typed spec of that name, so undeclared
supplied sub-keys are never reported. -/
theorem c5_missingKeysObjectParams (paramSpecs : List ParamSpec) (params : List Param)
    (hspec : (paramSpecs.map ParamSpec.name).Nodup)
    (hpar : (params.map Param.name).Nodup) :
    (∀ p ∈ params, p.value.type = ParamType.object → p.value.objectVal ≠ [] →
      ∀ s ∈ paramSpecs, s.name = p.name → s.type = ParamType.object →
        ((DiffLeft s.properties p.value.objectVal ≠ [] →
            (p.name, DiffLeft s.properties p.value.objectVal)
              ∈ MissingKeysObjectParamNames paramSpecs params)
         ∧ (DiffLeft s.properties p.value.objectVal = [] →
            ∀ ms, (p.name, ms) ∉ MissingKeysObjectParamNames paramSpecs params)))
    ∧ (∀ nm ms, (nm, ms) ∈ MissingKeysObjectParamNames paramSpecs params →
        ∀ k ∈ ms, ∃ s ∈ paramSpecs, s.name = nm ∧ s.type = ParamType.object ∧
          k ∈ s.properties) := by
  constructor
  · intro p hp hpobj hpne s hs hsn hsobj
    have hprov : collectProvidedKeys params p.name = p.value.objectVal :=
      collectProvidedKeys_eq_of_nodup hpar hp hpobj
    have hneed : collectNeededKeys paramSpecs p.name = s.properties := by
      rw [← hsn]
      exact collectNeededKeys_eq_of_nodup hspec hs hsobj
    constructor
    · intro hne
      rw [mem_MissingKeysObjectParamNames]
      have hpropne : s.properties ≠ [] := by
        intro hx
        apply hne
        rw [hx]
        rfl
      refine ⟨?_, ?_, ?_, hne⟩
      · rw [hprov]
        exact hpne
      · rw [hneed]
        exact hpropne
      · rw [hneed, hprov]
    · intro heq ms hmem
      rw [mem_MissingKeysObjectParamNames] at hmem
      obtain ⟨_, _, hms, hmsne⟩ := hmem
      rw [hneed, hprov] at hms
      exact hmsne (hms.trans heq)
  · intro nm ms hmem k hk
    rw [mem_MissingKeysObjectParamNames] at hmem
    obtain ⟨_, _, hms, _⟩ := hmem
    rw [hms] at hk
    have hkneed := (mem_DiffLeft.mp hk).1
    unfold collectNeededKeys at hkneed
    obtain ⟨s, hsmem, hks⟩ := List.mem_flatMap.mp hkneed
    obtain ⟨hsmem2, hcond⟩ := List.mem_filter.mp hsmem
    rw [decide_eq_true_eq] at hcond
    exact ⟨s, hsmem2, hcond.2, hcond.1, hks⟩

/-- Witness for C5: declared `cfg` requiring `k1, k2`, supplied `cfg` with
only `k1`: the check reports `cfg` with exactly the difference `[k2]`. -/
theorem c5_witness :
    ("cfg", DiffLeft ["k1", "k2"] ["k1"]) ∈ MissingKeysObjectParamNames
        [{ name := "cfg", type := ParamType.object, default := none,
           properties := ["k1", "k2"] }]
        [{ name := "cfg",
           value := { type := ParamType.object, objectVal := ["k1"] } }] := by
  have h := (c5_missingKeysObjectParams
      [{ name := "cfg", type := ParamType.object, default := none,
         properties := ["k1", "k2"] }]
      [{ name := "cfg", value := { type := ParamType.object, objectVal := ["k1"] } }]
      (by decide) (by decide)).1
      { name := "cfg", value := { type := ParamType.object, objectVal := ["k1"] } }
      (by decide) (by decide) (by decide)
      { name := "cfg", type := ParamType.object, default := none,
        properties := ["k1", "k2"] }
      (by decide) rfl rfl
  exact h.1 (by decide)

/-- Claim C6: `validateResources` reports the missing-names error whenever
some required name is absent (regardless of other problems), the
extra-names error whenever the missing check passes and some provided name
is undeclared, and on success every required resource is present with a
non-nil binding of the declared type, every optional resource present has
the declared type, and every provided name is declared. -/
theorem c6_validateResources (requiredResources : List TaskResource)
    (providedResources : List (String × Option String)) :
    (DiffLeft ((requiredResources.filter (fun r => !r.optional)).map (fun r => r.name))
        (providedResources.map (fun kv => kv.1)) ≠ [] →
      validateResources requiredResources providedResources
        = some (ResourcesError.missing
            (DiffLeft ((requiredResources.filter (fun r => !r.optional)).map
                (fun r => r.name))
              (providedResources.map (fun kv => kv.1)))))
    ∧ (DiffLeft ((requiredResources.filter (fun r => !r.optional)).map (fun r => r.name))
        (providedResources.map (fun kv => kv.1)) = [] →
      DiffLeft (providedResources.map (fun kv => kv.1))
        ((requiredResources.filter (fun r => !r.optional)).map (fun r => r.name)
          ++ (requiredResources.filter (fun r => r.optional)).map (fun r => r.name))
        ≠ [] →
      validateResources requiredResources providedResources
        = some (ResourcesError.extra
            (DiffLeft (providedResources.map (fun kv => kv.1))
              ((requiredResources.filter (fun r => !r.optional)).map (fun r => r.name)
                ++ (requiredResources.filter (fun r => r.optional)).map
                  (fun r => r.name)))))
    ∧ (validateResources requiredResources providedResources = none →
        (∀ r ∈ requiredResources, r.optional = false →
          ∃ t, mapGet providedResources r.name = some t ∧ r.type = t)
        ∧ (∀ r ∈ requiredResources, r.optional = true →
          ∀ t, mapGet providedResources r.name = some t → r.type = t)
        ∧ (∀ nm ∈ providedResources.map (fun kv => kv.1),
            nm ∈ requiredResources.map (fun r => r.name))) := by
  refine ⟨validateResources_eq_missing _ _, validateResources_eq_extra _ _, ?_⟩
  intro h
  obtain ⟨_, h2, h3⟩ := (validateResources_eq_none_iff _ _).mp h
  have htc := (resourcesTypeCheck_eq_none_iff _ _).mp h3
  refine ⟨?_, ?_, ?_⟩
  · intro r hr hopt
    obtain ⟨t, ht⟩ := (htc r hr).1 hopt
    exact ⟨t, ht, (htc r hr).2 t ht⟩
  · intro r hr _ t ht
    exact (htc r hr).2 t ht
  · intro nm hnm
    exact mem_requiredOptional.mp (DiffLeft_eq_nil_iff.mp h2 nm hnm)

/-- Witness for C6 at the spec's three-way example: required `r1`, optional
`r2`, provided `r1` and `r3`: the missing check passes and the extra error
fires naming the difference (which is `[r3]`). -/
theorem c6_witness :
    validateResources
        ([{ name := "r1", type := "git", optional := false },
          { name := "r2", type := "git", optional := true }] : List TaskResource)
        ([("r1", some "git"), ("r3", some "git")] : List (String × Option String))
      = some (ResourcesError.extra
          (DiffLeft
            (([("r1", some "git"), ("r3", some "git")] :
                List (String × Option String)).map (fun kv => kv.1))
            ((([{ name := "r1", type := "git", optional := false },
                { name := "r2", type := "git", optional := true }] :
                  List TaskResource).filter (fun r => !r.optional)).map (fun r => r.name)
              ++ (([{ name := "r1", type := "git", optional := false },
                   { name := "r2", type := "git", optional := true }] :
                    List TaskResource).filter (fun r => r.optional)).map
                  (fun r => r.name)))) :=
  (c6_validateResources _ _).2.1 (by decide) (by decide)

/-- Claim C1 counterexample: declared `cfg` of Object type without default
and with required key `x`; the supplied `cfg` is Object-typed with an empty
sub-key map.  `validateParams` returns nil, yet the supplied Object-typed
parameter does not contain the declared required key (declared-minus-
supplied is non-empty), violating the claimed success guarantee. -/
theorem c1_counterexample :
    validateParams "stable"
        [{ name := "cfg", type := ParamType.object, default := none,
           properties := ["x"] }]
        [{ name := "cfg", value := { type := ParamType.object, objectVal := [] } }] []
      = none
    ∧ DiffLeft ["x"] [] ≠ [] :=
  ⟨by decide, by decide⟩

/-- Claim C1 (amended): the four checks of `validateParams` are sequential
early-returns in the order missing-without-default, extra, wrong-type,
missing object keys, so only the first failing category's error is
returned; and (for uniquely-named specs and supplied parameters) when it
returns nil, every declared parameter with no default has a supplied
value, outside alpha mode no undeclared name was supplied, every supplied
ordinary parameter whose name is declared has runtime type equal to the
declared type while matrix parameters have String declared type, and every
supplied Object-typed parameter that supplies at least one sub-key contains
every key its declaration requires. -/
theorem c1_validateParams (enableAPIFields : String) (paramSpecs : List ParamSpec)
    (params matrix : List Param)
    (hspec : (paramSpecs.map ParamSpec.name).Nodup)
    (hpar : (params.map Param.name).Nodup) :
    (missingParamsNames (neededParamsNamesAndTypes paramSpecs).1
        (providedParamsNames (params ++ matrix)) paramSpecs ≠ [] →
      validateParams enableAPIFields paramSpecs params matrix
        = some (ParamsError.missing (missingParamsNames
            (neededParamsNamesAndTypes paramSpecs).1
            (providedParamsNames (params ++ matrix)) paramSpecs)))
    ∧ (missingParamsNames (neededParamsNamesAndTypes paramSpecs).1
        (providedParamsNames (params ++ matrix)) paramSpecs = [] →
      extraParamsNames enableAPIFields (neededParamsNamesAndTypes paramSpecs).1
        (providedParamsNames (params ++ matrix)) ≠ [] →
      validateParams enableAPIFields paramSpecs params matrix
        = some (ParamsError.extra (extraParamsNames enableAPIFields
            (neededParamsNamesAndTypes paramSpecs).1
            (providedParamsNames (params ++ matrix)))))
    ∧ (missingParamsNames (neededParamsNamesAndTypes paramSpecs).1
        (providedParamsNames (params ++ matrix)) paramSpecs = [] →
      extraParamsNames enableAPIFields (neededParamsNamesAndTypes paramSpecs).1
        (providedParamsNames (params ++ matrix)) = [] →
      wrongTypeParamsNames params matrix (neededParamsNamesAndTypes paramSpecs).2 ≠ [] →
      validateParams enableAPIFields paramSpecs params matrix
        = some (ParamsError.wrongType
            (wrongTypeParamsNames params matrix (neededParamsNamesAndTypes paramSpecs).2)))
    ∧ (missingParamsNames (neededParamsNamesAndTypes paramSpecs).1
        (providedParamsNames (params ++ matrix)) paramSpecs = [] →
      extraParamsNames enableAPIFields (neededParamsNamesAndTypes paramSpecs).1
        (providedParamsNames (params ++ matrix)) = [] →
      wrongTypeParamsNames params matrix (neededParamsNamesAndTypes paramSpecs).2 = [] →
      MissingKeysObjectParamNames paramSpecs params ≠ [] →
      validateParams enableAPIFields paramSpecs params matrix
        = some (ParamsError.missingKeys (MissingKeysObjectParamNames paramSpecs params)))
    ∧ (validateParams enableAPIFields paramSpecs params matrix = none →
        (∀ s ∈ paramSpecs, s.default = none →
          s.name ∈ providedParamsNames (params ++ matrix))
        ∧ (enableAPIFields ≠ "alpha" →
          ∀ p ∈ params ++ matrix, p.name ∈ paramSpecs.map ParamSpec.name)
        ∧ (∀ p ∈ params, ∀ s ∈ paramSpecs, s.name = p.name → p.value.type = s.type)
        ∧ (∀ p ∈ matrix, ∀ s ∈ paramSpecs, s.name = p.name → s.type = ParamType.string)
        ∧ (∀ p ∈ params, p.value.type = ParamType.object → p.value.objectVal ≠ [] →
            ∀ s ∈ paramSpecs, s.name = p.name → s.type = ParamType.object →
              ∀ k ∈ s.properties, k ∈ p.value.objectVal)) := by
  refine ⟨validateParams_eq_missing _ _ _ _, validateParams_eq_extra _ _ _ _,
    validateParams_eq_wrongType _ _ _ _, validateParams_eq_missingKeys _ _ _ _, ?_⟩
  intro h
  obtain ⟨hm, he, hw, hk⟩ := (validateParams_eq_none_iff _ _ _ _).mp h
  obtain ⟨hwp, hwm⟩ := List.append_eq_nil.mp hw
  refine ⟨?_, ?_, ?_, ?_, ?_⟩
  · intro s hs hdef
    by_contra hnp
    have hmem : s.name ∈ missingParamsNames (neededParamsNamesAndTypes paramSpecs).1
        (providedParamsNames (params ++ matrix)) paramSpecs :=
      mem_missingParamsNames.mpr
        ⟨mem_DiffLeft.mpr ⟨List.mem_map.mpr ⟨s, hs, rfl⟩, hnp⟩, s, hs, rfl, hdef⟩
    rw [hm] at hmem
    exact absurd hmem (List.not_mem_nil _)
  · intro hflag p hp
    have hex : DiffLeft (providedParamsNames (params ++ matrix))
        (neededParamsNamesAndTypes paramSpecs).1 = [] := by
      have : extraParamsNames enableAPIFields (neededParamsNamesAndTypes paramSpecs).1
          (providedParamsNames (params ++ matrix))
          = DiffLeft (providedParamsNames (params ++ matrix))
            (neededParamsNamesAndTypes paramSpecs).1 := by
        unfold extraParamsNames
        rw [if_pos hflag]
      rw [← this]
      exact he
    exact DiffLeft_eq_nil_iff.mp hex p.name (List.mem_map.mpr ⟨p, hp, rfl⟩)
  · intro p hp s hs hsn
    have hlook : lookupLast (paramSpecs.map (fun s => (s.name, s.type))) p.name
        = some s.type := (lookupLast_paramTypes hspec).mpr ⟨s, hs, hsn, rfl⟩
    have hf := List.filterMap_eq_nil_iff.mp hwp p hp
    rw [show (neededParamsNamesAndTypes paramSpecs).2
        = paramSpecs.map (fun s => (s.name, s.type)) from rfl, hlook] at hf
    dsimp only at hf
    by_contra hne
    rw [if_pos hne] at hf
    cases hf
  · intro p hp s hs hsn
    have hlook : lookupLast (paramSpecs.map (fun s => (s.name, s.type))) p.name
        = some s.type := (lookupLast_paramTypes hspec).mpr ⟨s, hs, hsn, rfl⟩
    have hf := List.filterMap_eq_nil_iff.mp hwm p hp
    rw [show (neededParamsNamesAndTypes paramSpecs).2
        = paramSpecs.map (fun s => (s.name, s.type)) from rfl, hlook] at hf
    dsimp only at hf
    by_contra hne
    rw [if_pos hne] at hf
    cases hf
  · intro p hp hpobj hpne s hs hsn hsobj k hkprops
    by_contra hknot
    have hprov : collectProvidedKeys params p.name = p.value.objectVal :=
      collectProvidedKeys_eq_of_nodup hpar hp hpobj
    have hneed : collectNeededKeys paramSpecs p.name = s.properties := by
      rw [← hsn]
      exact collectNeededKeys_eq_of_nodup hspec hs hsobj
    have hdne : DiffLeft s.properties p.value.objectVal ≠ [] :=
      List.ne_nil_of_mem (mem_DiffLeft.mpr ⟨hkprops, hknot⟩)
    have hmem : (p.name, DiffLeft s.properties p.value.objectVal)
        ∈ MissingKeysObjectParamNames paramSpecs params := by
      rw [mem_MissingKeysObjectParamNames]
      refine ⟨?_, ?_, ?_, hdne⟩
      · rw [hprov]
        exact hpne
      · rw [hneed]
        exact List.ne_nil_of_mem hkprops
      · rw [hneed, hprov]
    rw [hk] at hmem
    exact absurd hmem (List.not_mem_nil _)

/-- Witness for C1: one declared no-default parameter `a` supplied
correctly; `validateParams` succeeds and the success guarantee instantiates
to the supplied-value clause for `a`. -/
theorem c1_witness :
    ({ name := "a", type := ParamType.string, default := none,
       properties := [] } : ParamSpec).name
      ∈ providedParamsNames
          ([{ name := "a", value := { type := ParamType.string, objectVal := [] } }]
            ++ []) := by
  have h := (c1_validateParams "stable"
      [{ name := "a", type := ParamType.string, default := none, properties := [] }]
      [{ name := "a", value := { type := ParamType.string, objectVal := [] } }] []
      (by decide) (by decide)).2.2.2.2 (by decide)
  exact h.1 _ (by decide) (by decide)

end Taskrun
